import Mathlib

/-!
Verification development for the sparse cell store (`CellValues`,
`src/quadratic-core/src/values/cell_values.rs`) and the file-ingestion
pipeline (`src/quadratic-core/src/controller/operations/import.rs`) of the
quadratic-core spreadsheet engine.

Rust machine integers (`u32`, `u64`) are modelled as `Nat` (the code never
relies on wraparound: widths and heights only grow by explicit `+ 1` steps),
signed `i64` coordinates as `Int`.  Panics (`assert!`, out-of-bounds
indexing) are modelled with `Option`/`Except` results; `anyhow` errors are
modelled with an explicit error inductive.
-/

set_option maxHeartbeats 1000000

/-- Modelled from the spec: calendar date payload of the chrono `NaiveDate`
type used by the workbook ingester (the chrono crate is external to the
repository).  Only construction and equality are needed by the claims. -/
structure NaiveDate where
  year : Int
  month : Nat
  day : Nat
deriving DecidableEq, Repr

/-- Modelled from the spec: time-of-day payload of the chrono `NaiveTime`
type used by the workbook ingester. -/
structure NaiveTime where
  hour : Nat
  minute : Nat
  second : Nat
deriving DecidableEq, Repr

/-- Modelled from the spec: the chrono `NaiveDateTime` combination of a date
and a time-of-day, as produced by calamine's Excel date decoding. -/
structure NaiveDateTime where
  date : NaiveDate
  time : NaiveTime
deriving DecidableEq, Repr

/-- Modelled from the spec: the language tag of a Code cell
(`CodeCellLanguage`; the defining module is not under src/). -/
inductive CodeCellLanguage where
  | Formula
  | Python
  | Javascript
deriving DecidableEq, Repr

/-- Modelled from the spec: the Typed Value (`CellValue`) variants of §3
(the defining module is not under src/).  The exact-decimal Number payload
is simplified to `Int`; the claims compare variants and whole values, never
arithmetic on the payloads. -/
inductive CellValue where
  | Blank
  | Text (s : String)
  | Number (n : Int)
  | Logical (b : Bool)
  | Date (d : NaiveDate)
  | Time (t : NaiveTime)
  | DateTime (dt : NaiveDateTime)
  | Code (language : CodeCellLanguage) (code : String)
  | Import (name : String)
deriving DecidableEq, Repr

/-- Modelled from the spec: `CellValue::type_id`, the variant tag used by
header inference ("type signature (variant tag only, not value)"); the
defining module is not under src/.  Only distinctness of tags matters. -/
def CellValue.typeId : CellValue → Nat
  | .Blank => 0
  | .Text _ => 1
  | .Number _ => 2
  | .Logical _ => 3
  | .Code _ _ => 4
  | .Import _ => 5
  | .Date _ => 6
  | .Time _ => 7
  | .DateTime _ => 8

/-- One column of the sparse store: the `BTreeMap<u64, CellValue>` of
`CellValues.columns`, modelled as an association list observed only through
`colGet`/`colInsert`/`colRemove` (map semantics: insert replaces, remove
deletes the key). -/
abbrev Col : Type := List (Nat × CellValue)

/-- Map lookup on a column (`BTreeMap::get`). -/
def colGet : Col → Nat → Option CellValue
  | [], _ => none
  | (k, v) :: rest, y => if k = y then some v else colGet rest y

/-- Map removal on a column (`BTreeMap::remove` without the returned value;
the caller reads the value with `colGet` first). -/
def colRemove : Col → Nat → Col
  | [], _ => []
  | (k, v) :: rest, y => if k = y then colRemove rest y else (k, v) :: colRemove rest y

/-- Map insertion on a column (`BTreeMap::insert`): replaces any previous
binding of the key. -/
def colInsert (col : Col) (y : Nat) (v : CellValue) : Col :=
  (y, v) :: colRemove col y

theorem colGet_colRemove (col : Col) (y y' : Nat) :
    colGet (colRemove col y) y' = if y' = y then none else colGet col y' := by
  induction col with
  | nil =>
    by_cases h : y' = y <;> simp [colRemove, colGet, h]
  | cons e rest ih =>
    obtain ⟨k, v⟩ := e
    by_cases hk : k = y
    · rw [colRemove, if_pos hk, ih]
      by_cases hy : y' = y
      · simp [hy]
      · have hky : ¬ k = y' := by omega
        simp [colGet, hy, hky]
    · rw [colRemove, if_neg hk, colGet, colGet]
      by_cases hky : k = y'
      · have hy : ¬ y' = y := by omega
        simp [hky, hy]
      · simp [hky, ih]

theorem colGet_colInsert (col : Col) (y y' : Nat) (v : CellValue) :
    colGet (colInsert col y v) y' = if y' = y then some v else colGet col y' := by
  rw [colInsert, colGet]
  by_cases h : y = y'
  · simp [h]
  · have h' : ¬ y' = y := by omega
    simp [h, h', colGet_colRemove]

/-- The Sparse Store `CellValues` (cell_values.rs lines 9-14): a vector of
per-column row maps plus logical bounds `w`, `h`. -/
structure CellValues where
  columns : List Col
  w : Nat
  h : Nat
deriving DecidableEq, Repr

/-- Error kinds of the accessors: the `assert!` bounds panic / `bail!`
out-of-bounds message, the "No column found" error, and the "No value
found" error. -/
inductive CvError where
  | outOfBounds
  | noColumn
  | noValue
deriving DecidableEq, Repr

/-- `CellValues::new` (lines 17-23). -/
def CellValues.new (w h : Nat) : CellValues :=
  ⟨List.replicate w ([] : List (Nat × CellValue)), w, h⟩

/-- `CellValues::new_blank` (lines 25-35): every in-bounds cell explicitly
holds `Blank`. -/
def CellValues.newBlank (w h : Nat) : CellValues :=
  ⟨List.replicate w ((List.range h).map (fun y => (y, CellValue.Blank))), w, h⟩

/-- The raw store lookup `self.columns.get(x).and_then(|col| col.get(&y))`
shared by the read accessors (no bounds check). -/
def cellAt (cv : CellValues) (x y : Nat) : Option CellValue :=
  (cv.columns[x]?).bind (fun col => colGet col y)

/-- `CellValues::get` (lines 51-56).  The outer `Option` models the
`assert!` bounds panic; the inner one is the map lookup result. -/
def CellValues.get (cv : CellValues) (x y : Nat) : Option (Option CellValue) :=
  if x < cv.w ∧ y < cv.h then some (cellAt cv x y) else none

/-- `CellValues::get_except_blank` (lines 37-49): like `get` but an
explicitly stored `Blank` is reported as `None`. -/
def CellValues.getExceptBlank (cv : CellValues) (x y : Nat) : Option (Option CellValue) :=
  if x < cv.w ∧ y < cv.h then
    some ((cellAt cv x y).bind (fun v => if v = CellValue.Blank then none else some v))
  else none

/-- `CellValues::safe_get` (lines 58-76): fallible accessor; out-of-bounds
and missing-value conditions bail with distinct messages. -/
def CellValues.safeGet (cv : CellValues) (x y : Nat) : Except CvError CellValue :=
  if x < cv.w ∧ y < cv.h then
    match cellAt cv x y with
    | some v => Except.ok v
    | none => Except.error CvError.noValue
  else Except.error CvError.outOfBounds

/-- `CellValues::get_owned` (lines 78-97): like `safe_get` but the missing
column and the missing key produce distinct errors. -/
def CellValues.getOwned (cv : CellValues) (x y : Nat) : Except CvError CellValue :=
  if x < cv.w ∧ y < cv.h then
    match cv.columns[x]? with
    | none => Except.error CvError.noColumn
    | some col =>
      match colGet col y with
      | some v => Except.ok v
      | none => Except.error CvError.noValue
  else Except.error CvError.outOfBounds

/-- `CellValues::set` (lines 114-127): grows `h` to `y+1` and `w` to `x+1`
when the target lies beyond the current bounds (appending empty columns),
then inserts into column `x`.  The `Option` result models the
`self.columns[x]` indexing panic (unreachable while `columns.len() == w`). -/
def CellValues.set (cv : CellValues) (x y : Nat) (v : CellValue) : Option CellValues :=
  let h2 := if cv.h ≤ y then y + 1 else cv.h
  let cols := if cv.w ≤ x then cv.columns ++ List.replicate (x + 1 - cv.w) ([] : List (Nat × CellValue)) else cv.columns
  let w2 := if cv.w ≤ x then x + 1 else cv.w
  match cols[x]? with
  | some colx => some ⟨cols.set x (colInsert colx y v), w2, h2⟩
  | none => none

/-- `CellValues::remove` (lines 129-137): asserts the coordinate is within
bounds, then removes and returns the map entry.  Width and height are not
touched. -/
def CellValues.remove (cv : CellValues) (x y : Nat) :
    Except CvError (CellValues × Option CellValue) :=
  if x < cv.w ∧ y < cv.h then
    match cv.columns[x]? with
    | some colx =>
      Except.ok (⟨cv.columns.set x (colRemove colx y), cv.w, cv.h⟩, colGet colx y)
    | none => Except.error CvError.noColumn
  else Except.error CvError.outOfBounds

theorem cellAt_new (w h x y : Nat) : cellAt (CellValues.new w h) x y = none := by
  unfold cellAt CellValues.new
  simp only [List.getElem?_replicate]
  by_cases hx : x < w
  · simp [hx, colGet]
  · simp [hx]

/-- Effect of `CellValues::set` on a store whose column vector matches its
logical width: it succeeds, grows the bounds to cover the target, preserves
the width/columns agreement, and updates exactly the target cell. -/
theorem set_spec (cv : CellValues) (x y : Nat) (v : CellValue)
    (hinv : cv.columns.length = cv.w) :
    ∃ cv', cv.set x y v = some cv' ∧
      cv'.w = max cv.w (x + 1) ∧
      cv'.h = max cv.h (y + 1) ∧
      cv'.columns.length = cv'.w ∧
      ∀ x' y', cellAt cv' x' y' =
        if x' = x ∧ y' = y then some v else cellAt cv x' y' := by
  by_cases hx : cv.w ≤ x
  · -- growth case: columns are extended with empty maps up to index x
    have hlen : (cv.columns ++ List.replicate (x + 1 - cv.w) ([] : Col)).length = x + 1 := by
      simp only [List.length_append, List.length_replicate]
      omega
    have hcx : (cv.columns ++ List.replicate (x + 1 - cv.w) ([] : Col))[x]? = some ([] : Col) := by
      rw [List.getElem?_append_right (by omega), hinv, List.getElem?_replicate,
        if_pos (by omega)]
    refine ⟨⟨(cv.columns ++ List.replicate (x + 1 - cv.w) ([] : Col)).set x
        (colInsert ([] : Col) y v), x + 1, if cv.h ≤ y then y + 1 else cv.h⟩, ?_, ?_, ?_, ?_, ?_⟩
    · unfold CellValues.set
      simp only [if_pos hx, hcx]
    · simp only
      omega
    · simp only
      split <;> omega
    · simp only [List.length_set]
      omega
    · intro x' y'
      by_cases hx' : x' = x
      · subst hx'
        unfold cellAt
        have hsl : ((cv.columns ++ List.replicate (x' + 1 - cv.w) ([] : Col)).set x'
            (colInsert ([] : Col) y v))[x']? = some (colInsert ([] : Col) y v) :=
          List.getElem?_set_self (by omega)
        have hnone : cv.columns[x']? = none := List.getElem?_eq_none (by omega)
        rw [hsl, hnone]
        by_cases hy' : y' = y
        · simp [hy', colGet_colInsert]
        · simp [hy', colGet_colInsert, colGet]
          omega
      · unfold cellAt
        simp only [List.getElem?_set_ne (fun hh => hx' hh.symm)]
        rw [if_neg (by tauto)]
        by_cases hlt : x' < cv.w
        · rw [List.getElem?_append_left (by omega)]
        · have h1 : cv.columns[x']? = none := List.getElem?_eq_none (by omega)
          rw [List.getElem?_append_right (by omega), hinv, List.getElem?_replicate, h1]
          split <;> simp [colGet]
  · -- in-bounds case: width and columns unchanged
    have hxl : x < cv.columns.length := by omega
    have hcx : cv.columns[x]? = some cv.columns[x] := List.getElem?_eq_getElem hxl
    refine ⟨⟨cv.columns.set x (colInsert cv.columns[x] y v), cv.w,
        if cv.h ≤ y then y + 1 else cv.h⟩, ?_, ?_, ?_, ?_, ?_⟩
    · unfold CellValues.set
      simp only [if_neg hx, hcx]
    · simp only
      omega
    · simp only
      split <;> omega
    · simp only [List.length_set]
      omega
    · intro x' y'
      by_cases hx' : x' = x
      · subst hx'
        unfold cellAt
        have hsl : ((cv.columns.set x' (colInsert cv.columns[x'] y v)))[x']? =
            some (colInsert cv.columns[x'] y v) := List.getElem?_set_self hxl
        rw [hsl, hcx]
        by_cases hy' : y' = y <;> simp [hy', colGet_colInsert]
      · unfold cellAt
        simp only [List.getElem?_set_ne (fun hh => hx' hh.symm)]
        rw [if_neg (by tauto)]

/-- Effect of a successful `CellValues::remove` on a store whose column
vector matches its logical width: it returns the previously stored value,
leaves the bounds untouched, and clears exactly the target cell. -/
theorem remove_spec (cv : CellValues) (x y : Nat)
    (hinv : cv.columns.length = cv.w) (hx : x < cv.w) (hy : y < cv.h) :
    ∃ cv', cv.remove x y = Except.ok (cv', cellAt cv x y) ∧
      cv'.w = cv.w ∧ cv'.h = cv.h ∧ cv'.columns.length = cv.columns.length ∧
      ∀ x' y', cellAt cv' x' y' =
        if x' = x ∧ y' = y then none else cellAt cv x' y' := by
  have hxl : x < cv.columns.length := by omega
  have hcx : cv.columns[x]? = some cv.columns[x] := List.getElem?_eq_getElem hxl
  refine ⟨⟨cv.columns.set x (colRemove cv.columns[x] y), cv.w, cv.h⟩, ?_, rfl, rfl, ?_, ?_⟩
  · unfold CellValues.remove cellAt
    rw [if_pos ⟨hx, hy⟩, hcx]
    rfl
  · simp [List.length_set]
  · intro x' y'
    by_cases hx' : x' = x
    · subst hx'
      unfold cellAt
      have hsl : ((cv.columns.set x' (colRemove cv.columns[x'] y)))[x']? =
          some (colRemove cv.columns[x'] y) := List.getElem?_set_self hxl
      rw [hsl, hcx]
      by_cases hy' : y' = y <;> simp [hy', colGet_colRemove]
    · unfold cellAt
      simp only [List.getElem?_set_ne (fun hh => hx' hh.symm)]
      rw [if_neg (by tauto)]

/-- C1: for every CellValues store (with its column vector matching its
logical width, as every store built by the API satisfies), `set(x, y, v)`
with `x` beyond the current width extends the width to exactly `x+1`, with
`y` beyond the current height extends the height to exactly `y+1`, and
leaves the bounds unchanged when both coordinates are within bounds; a
successful `remove` never decreases (in fact never changes) width or
height. -/
theorem cellValues_set_grows_remove_keeps_bounds
    (cv : CellValues) (x y : Nat) (v : CellValue)
    (hinv : cv.columns.length = cv.w) :
    (∃ cv', cv.set x y v = some cv' ∧
        cv'.w = (if x < cv.w then cv.w else x + 1) ∧
        cv'.h = (if y < cv.h then cv.h else y + 1)) ∧
    (∀ cv'' r, cv.remove x y = Except.ok (cv'', r) →
        cv.w ≤ cv''.w ∧ cv.h ≤ cv''.h ∧ cv''.w = cv.w ∧ cv''.h = cv.h) := by
  constructor
  · obtain ⟨cv', hset, hw, hh, -, -⟩ := set_spec cv x y v hinv
    refine ⟨cv', hset, ?_, ?_⟩
    · rw [hw]
      split <;> omega
    · rw [hh]
      split <;> omega
  · intro cv'' r hrem
    unfold CellValues.remove at hrem
    split at hrem
    · split at hrem
      · simp only [Except.ok.injEq, Prod.mk.injEq] at hrem
        obtain ⟨rfl, -⟩ := hrem
        exact ⟨le_refl _, le_refl _, rfl, rfl⟩
      · cases hrem
    · cases hrem

/-- Witness for C1: on a fresh 1-by-1 store, `set(2, 3, v)` grows the
bounds to exactly 3-by-4, and a successful `remove` on a 1-by-1 blank store
keeps its bounds. -/
theorem cellValues_set_grows_remove_keeps_bounds_witness :
    ((CellValues.new 1 1).set 2 3 CellValue.Blank).map CellValues.w = some 3 ∧
    ((CellValues.new 1 1).set 2 3 CellValue.Blank).map CellValues.h = some 4 ∧
    (CellValues.newBlank 1 1).w ≤ (⟨[([] : Col)], 1, 1⟩ : CellValues).w := by
  obtain ⟨⟨cv', hset, hw, hh⟩, -⟩ :=
    cellValues_set_grows_remove_keeps_bounds (CellValues.new 1 1) 2 3 CellValue.Blank (by decide)
  refine ⟨?_, ?_, ?_⟩
  · rw [hset]
    simp only [Option.map_some']
    rw [hw]
    decide
  · rw [hset]
    simp only [Option.map_some']
    rw [hh]
    decide
  · obtain ⟨-, hr⟩ :=
      cellValues_set_grows_remove_keeps_bounds (CellValues.newBlank 1 1) 0 0 CellValue.Blank
        (by decide)
    exact (hr ⟨[([] : Col)], 1, 1⟩ (some CellValue.Blank) rfl).1

/-- C2: every read accessor of the Sparse Store (`get`, `get_except_blank`,
`safe_get`, `get_owned`, `remove`) fails with the out-of-bounds condition
whenever `x ≥ w` or `y ≥ h`, regardless of whether a value is present; and
within bounds none of them can take the bounds-check failure branch. -/
theorem cellValues_accessors_bounds_check (cv : CellValues) (x y : Nat) :
    (¬ (x < cv.w ∧ y < cv.h) →
      cv.get x y = none ∧
      cv.getExceptBlank x y = none ∧
      cv.safeGet x y = Except.error CvError.outOfBounds ∧
      cv.getOwned x y = Except.error CvError.outOfBounds ∧
      cv.remove x y = Except.error CvError.outOfBounds) ∧
    ((x < cv.w ∧ y < cv.h) →
      (cv.get x y).isSome = true ∧
      (cv.getExceptBlank x y).isSome = true ∧
      cv.safeGet x y ≠ Except.error CvError.outOfBounds ∧
      cv.getOwned x y ≠ Except.error CvError.outOfBounds ∧
      cv.remove x y ≠ Except.error CvError.outOfBounds) := by
  constructor
  · intro hout
    unfold CellValues.get CellValues.getExceptBlank CellValues.safeGet CellValues.getOwned
      CellValues.remove
    simp [hout]
  · intro hin
    unfold CellValues.get CellValues.getExceptBlank CellValues.safeGet CellValues.getOwned
      CellValues.remove
    refine ⟨by simp [hin], by simp [hin], ?_, ?_, ?_⟩
    · rw [if_pos hin]
      split <;> simp
    · rw [if_pos hin]
      split
      · simp
      · split <;> simp
    · rw [if_pos hin]
      split <;> simp

/-- Witness for C2: a 1-by-1 blank store rejects the out-of-bounds read
(5, 0) and accepts the in-bounds read (0, 0). -/
theorem cellValues_accessors_bounds_check_witness :
    (CellValues.newBlank 1 1).get 5 0 = none ∧
    ((CellValues.newBlank 1 1).get 0 0).isSome = true := by
  refine ⟨?_, ?_⟩
  · exact ((cellValues_accessors_bounds_check (CellValues.newBlank 1 1) 5 0).1 (by decide)).1
  · exact ((cellValues_accessors_bounds_check (CellValues.newBlank 1 1) 0 0).2 (by decide)).1

/-- C9: for every in-bounds coordinate, `get_except_blank` answers `Some v`
exactly when a value `v` different from `Blank` is stored there, and `None`
both when the cell is absent and when the stored value is exactly `Blank`;
`get` in contrast reports the raw store content, preserving the
`Some(Blank)` versus `None` distinction. -/
theorem cellValues_get_except_blank_spec (cv : CellValues) (x y : Nat)
    (hx : x < cv.w) (hy : y < cv.h) :
    cv.get x y = some (cellAt cv x y) ∧
    (∀ v : CellValue, cv.getExceptBlank x y = some (some v) ↔
        (cellAt cv x y = some v ∧ v ≠ CellValue.Blank)) ∧
    (cv.getExceptBlank x y = some none ↔
        (cellAt cv x y = none ∨ cellAt cv x y = some CellValue.Blank)) := by
  unfold CellValues.get CellValues.getExceptBlank
  rw [if_pos ⟨hx, hy⟩, if_pos ⟨hx, hy⟩]
  refine ⟨rfl, ?_, ?_⟩
  · intro v
    cases hc : cellAt cv x y with
    | none => simp
    | some u =>
      by_cases hu : u = CellValue.Blank
      · subst hu
        simp only [Option.some_bind, if_pos rfl]
        constructor
        · intro hh
          simp at hh
        · rintro ⟨huv, hne⟩
          simp only [Option.some.injEq] at huv
          exact absurd huv.symm hne
      · simp only [Option.some_bind, if_neg hu]
        constructor
        · intro hh
          simp only [Option.some.injEq] at hh
          exact ⟨by rw [hh], fun hv => hu (hh ▸ hv)⟩
        · rintro ⟨huv, -⟩
          simp only [Option.some.injEq] at huv
          rw [huv]
  · cases hc : cellAt cv x y with
    | none => simp
    | some u =>
      by_cases hu : u = CellValue.Blank
      · subst hu
        simp
      · simp [hu, Option.bind_some]

/-- Witness for C9: on a 1-by-1 store holding `Logical true` at the origin,
`get_except_blank` returns it; on a 1-by-1 store holding an explicit
`Blank`, it returns `None`. -/
theorem cellValues_get_except_blank_spec_witness :
    (⟨[[(0, CellValue.Logical true)]], 1, 1⟩ : CellValues).getExceptBlank 0 0 =
      some (some (CellValue.Logical true)) ∧
    (CellValues.newBlank 1 1).getExceptBlank 0 0 = some none := by
  constructor
  · exact ((cellValues_get_except_blank_spec
      (⟨[[(0, CellValue.Logical true)]], 1, 1⟩ : CellValues) 0 0 (by decide) (by decide)).2.1
        (CellValue.Logical true)).mpr ⟨by decide, by decide⟩
  · exact ((cellValues_get_except_blank_spec
      (CellValues.newBlank 1 1) 0 0 (by decide) (by decide)).2.2).mpr (Or.inr (by decide))


theorem range_map_succ_shift_nat {α : Type} (n : Nat) (f : Nat → α) :
    (List.range (n + 1)).map f = f 0 :: (List.range n).map (fun i => f (i + 1)) := by
  rw [List.range_succ_eq_map, List.map_cons, List.map_map]
  rfl

theorem range_map_succ_shift (n : Nat) (A : Int) :
    (List.range (n + 1)).map (fun i : Nat => A + (i : Int)) =
      A :: (List.range n).map (fun i : Nat => (A + 1) + (i : Int)) := by
  rw [range_map_succ_shift_nat]
  refine congrArg₂ _ (by norm_num) ?_
  apply List.map_congr_left
  intro i _
  push_cast
  ring

/-- Modelled from the spec: the rectangle type `Rect` consumed by
`CellValues::get_rect` (its defining module is not under src/): an inclusive
coordinate box `min..=max` on both axes, with `x_range`/`y_range` iterating
`min.x..=max.x` / `min.y..=max.y` and `width`/`height` the inclusive extents
(clamped at zero for an empty box, matching the `as u32` casts). -/
structure Rect where
  minX : Int
  minY : Int
  maxX : Int
  maxY : Int
deriving DecidableEq, Repr

/-- Inclusive horizontal extent of the rectangle. -/
def Rect.width (r : Rect) : Nat := (r.maxX + 1 - r.minX).toNat

/-- Inclusive vertical extent of the rectangle. -/
def Rect.height (r : Rect) : Nat := (r.maxY + 1 - r.minY).toNat

/-- The `rect.x_range()` iterator `min.x..=max.x`. -/
def Rect.xRange (r : Rect) : List Int :=
  (List.range r.width).map (fun i : Nat => r.minX + (i : Int))

/-- The `rect.y_range()` iterator `min.y..=max.y`. -/
def Rect.yRange (r : Rect) : List Int :=
  (List.range r.height).map (fun i : Nat => r.minY + (i : Int))

/-- Inner loop of `CellValues::get_rect` (lines 103-110): one row of the
extraction; each coordinate is converted with `u32::try_from(x).unwrap_or(0)`
(modelled by `Int.toNat`, which also clamps negatives to zero), removed from
the store, and replaced by `Blank` when absent. -/
def getRectGo : CellValues → Int → List Int → Except CvError (CellValues × List CellValue)
  | cv, _, [] => Except.ok (cv, [])
  | cv, y, x :: rest =>
    match cv.remove x.toNat y.toNat with
    | Except.error e => Except.error e
    | Except.ok (cv1, v) =>
      match getRectGo cv1 y rest with
      | Except.error e => Except.error e
      | Except.ok (cv2, vs) => Except.ok (cv2, v.getD CellValue.Blank :: vs)

/-- Outer loop of `CellValues::get_rect`: rows are processed top to bottom,
threading the store state. -/
def getRectRows : CellValues → List Int → List Int →
    Except CvError (CellValues × List (List CellValue))
  | cv, [], _ => Except.ok (cv, [])
  | cv, y :: ys, xs =>
    match getRectGo cv y xs with
    | Except.error e => Except.error e
    | Except.ok (cv1, row) =>
      match getRectRows cv1 ys xs with
      | Except.error e => Except.error e
      | Except.ok (cv2, rows) => Except.ok (cv2, row :: rows)

/-- `CellValues::get_rect` (lines 99-112): destructive rectangular
extraction.  The `Except` result models the `remove` bounds panic. -/
def CellValues.getRect (cv : CellValues) (r : Rect) :
    Except CvError (CellValues × List (List CellValue)) :=
  getRectRows cv r.yRange r.xRange

theorem getRectGo_spec (n : Nat) :
    ∀ (A : Int) (cv : CellValues) (y : Int),
      0 ≤ A → 0 ≤ y → y.toNat < cv.h → A.toNat + n ≤ cv.w →
      cv.columns.length = cv.w →
      ∃ cv2, getRectGo cv y ((List.range n).map (fun i : Nat => A + (i : Int))) =
          Except.ok (cv2,
            (List.range n).map (fun i =>
              (cellAt cv (A.toNat + i) y.toNat).getD CellValue.Blank)) ∧
        cv2.w = cv.w ∧ cv2.h = cv.h ∧ cv2.columns.length = cv.columns.length ∧
        ∀ x' y', cellAt cv2 x' y' =
          if A.toNat ≤ x' ∧ x' < A.toNat + n ∧ y' = y.toNat then none
          else cellAt cv x' y' := by
  induction n with
  | zero =>
    intro A cv y _ _ _ _ _
    refine ⟨cv, by simp [getRectGo], rfl, rfl, rfl, ?_⟩
    intro x' y'
    rw [if_neg (by omega)]
  | succ n ih =>
    intro A cv y hA hy hyh hw hinv
    rw [range_map_succ_shift]
    have hxb : A.toNat < cv.w := by omega
    obtain ⟨cv1, hrem, hw1, hh1, hlen1, hcell1⟩ := remove_spec cv A.toNat y.toNat hinv hxb hyh
    have htn : (A + 1).toNat = A.toNat + 1 := by omega
    obtain ⟨cv2, hgo, hw2, hh2, hlen2, hcell2⟩ :=
      ih (A + 1) cv1 y (by omega) hy (by rw [hh1]; exact hyh)
        (by rw [htn, hw1]; omega) (by rw [hlen1, hinv, ← hw1])
    refine ⟨cv2, ?_, by rw [hw2, hw1], by rw [hh2, hh1], by rw [hlen2, hlen1], ?_⟩
    · simp only [getRectGo]
      rw [hrem]
      simp only [hgo]
      simp only [Except.ok.injEq, Prod.mk.injEq, true_and]
      rw [range_map_succ_shift_nat]
      congr 1
      apply List.map_congr_left
      intro i _
      have hidx : (A + 1).toNat + i = A.toNat + (i + 1) := by omega
      rw [hidx, hcell1, if_neg (by omega)]
    · intro x' y'
      rw [hcell2]
      by_cases h1 : (A + 1).toNat ≤ x' ∧ x' < (A + 1).toNat + n ∧ y' = y.toNat
      · rw [if_pos h1, if_pos (by omega)]
      · rw [if_neg h1, hcell1]
        by_cases h2 : x' = A.toNat ∧ y' = y.toNat
        · rw [if_pos h2, if_pos (by omega)]
        · rw [if_neg h2, if_neg (by omega)]

theorem getRectRows_spec (m : Nat) :
    ∀ (B : Int) (cv : CellValues) (n : Nat) (A : Int),
      0 ≤ A → 0 ≤ B → A.toNat + n ≤ cv.w → B.toNat + m ≤ cv.h →
      cv.columns.length = cv.w →
      ∃ cv2, getRectRows cv ((List.range m).map (fun j : Nat => B + (j : Int)))
          ((List.range n).map (fun i : Nat => A + (i : Int))) =
          Except.ok (cv2,
            (List.range m).map (fun j =>
              (List.range n).map (fun i =>
                (cellAt cv (A.toNat + i) (B.toNat + j)).getD CellValue.Blank))) ∧
        cv2.w = cv.w ∧ cv2.h = cv.h ∧ cv2.columns.length = cv.columns.length ∧
        ∀ x' y', cellAt cv2 x' y' =
          if A.toNat ≤ x' ∧ x' < A.toNat + n ∧ B.toNat ≤ y' ∧ y' < B.toNat + m then none
          else cellAt cv x' y' := by
  induction m with
  | zero =>
    intro B cv n A _ _ _ _ _
    refine ⟨cv, by simp [getRectRows], rfl, rfl, rfl, ?_⟩
    intro x' y'
    rw [if_neg (by omega)]
  | succ m ih =>
    intro B cv n A hA hB hw hh hinv
    rw [range_map_succ_shift]
    have hyb : B.toNat < cv.h := by omega
    obtain ⟨cv1, hgo, hw1, hh1, hlen1, hcell1⟩ :=
      getRectGo_spec n A cv B hA hB hyb hw hinv
    have htn : (B + 1).toNat = B.toNat + 1 := by omega
    obtain ⟨cv2, hrows, hw2, hh2, hlen2, hcell2⟩ :=
      ih (B + 1) cv1 n A hA (by omega) (by rw [hw1]; exact hw)
        (by rw [htn, hh1]; omega) (by rw [hlen1, hinv, ← hw1])
    refine ⟨cv2, ?_, by rw [hw2, hw1], by rw [hh2, hh1], by rw [hlen2, hlen1], ?_⟩
    · simp only [getRectRows]
      rw [hgo]
      simp only [hrows]
      simp only [Except.ok.injEq, Prod.mk.injEq, true_and]
      rw [range_map_succ_shift_nat m (fun j : Nat => (List.range n).map (fun i : Nat =>
        (cellAt cv (A.toNat + i) (B.toNat + j)).getD CellValue.Blank))]
      congr 1
      apply List.map_congr_left
      intro j _
      apply List.map_congr_left
      intro i _
      have hidx : (B + 1).toNat + j = B.toNat + (j + 1) := by omega
      rw [hidx, hcell1, if_neg (by omega)]
    · intro x' y'
      rw [hcell2]
      by_cases h1 : A.toNat ≤ x' ∧ x' < A.toNat + n ∧ (B + 1).toNat ≤ y' ∧
          y' < (B + 1).toNat + m
      · rw [if_pos h1, if_pos (by omega)]
      · rw [if_neg h1, hcell1]
        by_cases h2 : A.toNat ≤ x' ∧ x' < A.toNat + n ∧ y' = B.toNat
        · rw [if_pos h2, if_pos (by omega)]
        · rw [if_neg h2, if_neg (by omega)]

/-- C3: for every store (column vector matching the logical width) and every
rectangle with non-negative coordinates lying within the current bounds,
`get_rect` succeeds and returns a height-by-width matrix whose entry (j, i)
is the value previously stored at the corresponding cell, or `Blank` when
that cell was absent; afterwards every cell of the rectangle has been
removed from the store (and cells outside it are untouched, with the bounds
unchanged). -/
theorem cellValues_getRect_spec (cv : CellValues) (r : Rect)
    (hinv : cv.columns.length = cv.w)
    (hminx : 0 ≤ r.minX) (hminy : 0 ≤ r.minY)
    (hwb : r.minX.toNat + r.width ≤ cv.w) (hhb : r.minY.toNat + r.height ≤ cv.h) :
    ∃ cv2 vals, cv.getRect r = Except.ok (cv2, vals) ∧
      vals.length = r.height ∧
      (∀ row ∈ vals, row.length = r.width) ∧
      (∀ j, j < r.height → ∀ i, i < r.width →
        vals[j]?.bind (fun row => row[i]?) =
          some ((cellAt cv (r.minX.toNat + i) (r.minY.toNat + j)).getD CellValue.Blank)) ∧
      (∀ x' y', cellAt cv2 x' y' =
        if r.minX.toNat ≤ x' ∧ x' < r.minX.toNat + r.width ∧
            r.minY.toNat ≤ y' ∧ y' < r.minY.toNat + r.height then none
        else cellAt cv x' y') ∧
      cv2.w = cv.w ∧ cv2.h = cv.h := by
  obtain ⟨cv2, hrun, hw2, hh2, -, hcell⟩ :=
    getRectRows_spec r.height r.minY cv r.width r.minX hminx hminy hwb hhb hinv
  refine ⟨cv2, (List.range r.height).map (fun j =>
      (List.range r.width).map (fun i =>
        (cellAt cv (r.minX.toNat + i) (r.minY.toNat + j)).getD CellValue.Blank)),
    ?_, ?_, ?_, ?_, hcell, hw2, hh2⟩
  · unfold CellValues.getRect Rect.xRange Rect.yRange
    exact hrun
  · simp
  · intro row hrow
    simp only [List.mem_map] at hrow
    obtain ⟨j, -, rfl⟩ := hrow
    simp
  · intro j hj i hi
    simp [List.getElem?_map, List.getElem?_range, hj, hi]

/-- Witness for C3: extracting the full 2-by-2 rectangle from a 2-by-2
store holding one value yields a 2-row matrix and clears the origin cell. -/
theorem cellValues_getRect_spec_witness :
    ((⟨[[(0, CellValue.Logical true)], []], 2, 2⟩ : CellValues).getRect
        ⟨0, 0, 1, 1⟩).toOption.map (fun p => p.2.length) = some 2 ∧
    ((⟨[[(0, CellValue.Logical true)], []], 2, 2⟩ : CellValues).getRect
        ⟨0, 0, 1, 1⟩).toOption.map (fun p => cellAt p.1 0 0) = some none := by
  obtain ⟨cv2, vals, hrun, hlen, -, -, hcell, -, -⟩ :=
    cellValues_getRect_spec (⟨[[(0, CellValue.Logical true)], []], 2, 2⟩ : CellValues)
      ⟨0, 0, 1, 1⟩ (by decide) (by decide) (by decide) (by decide) (by decide)
  constructor
  · rw [hrun]
    simp only [Except.toOption, Option.map_some']
    rw [hlen]
    decide
  · rw [hrun]
    simp only [Except.toOption, Option.map_some']
    rw [hcell 0 0, if_pos (by decide)]

/-- What one column-filling pass leaves visible at row `y`: entries of `col`
(indexed from `k`) that are `some` overwrite, `none` entries and rows
outside `col` keep the previous content. -/
def overrideCol : List (Option CellValue) → Nat → Nat → Option CellValue → Option CellValue
  | [], _, _, old => old
  | c :: rest, k, y, old =>
    if y = k then
      match c with
      | some v => some v
      | none => old
    else overrideCol rest (k + 1) y old

theorem overrideCol_lt (col : List (Option CellValue)) :
    ∀ (k y : Nat) (old : Option CellValue), y < k → overrideCol col k y old = old := by
  induction col with
  | nil =>
    intro k y old _
    rfl
  | cons c rest ih =>
    intro k y old hy
    simp only [overrideCol]
    rw [if_neg (by omega)]
    exact ih (k + 1) y old (by omega)

theorem overrideCol_none (col : List (Option CellValue)) :
    ∀ (k y : Nat), overrideCol col k y none =
      if k ≤ y then (col.getD (y - k) none) else none := by
  induction col with
  | nil =>
    intro k y
    simp only [overrideCol]
    split <;> simp [List.getD]
  | cons c rest ih =>
    intro k y
    by_cases hy : y = k
    · subst hy
      simp only [overrideCol]
      cases c <;> simp [List.getD]
    · simp only [overrideCol]
      rw [if_neg hy, ih]
      by_cases hk : k + 1 ≤ y
      · rw [if_pos hk, if_pos (by omega)]
        have hyk : y - k = (y - (k + 1)) + 1 := by omega
        rw [hyk]
        simp [List.getD]
      · rw [if_neg hk, if_neg (by omega)]

/-- One plus the largest row index of a `some` entry of the column (indexed
from `k`); zero when there is none.  This is how far the column forces the
store height to grow. -/
def colBound : Nat → List (Option CellValue) → Nat
  | _, [] => 0
  | k, none :: rest => colBound (k + 1) rest
  | k, some _ :: rest => max (k + 1) (colBound (k + 1) rest)

/-- Inner loop of `From<Vec<Vec<Option<CellValue>>>>` (cell_values.rs lines
248-254): walk one inner vector from row index `k`, calling `set` on each
`Some` entry and skipping `None` entries. -/
def setColFrom : CellValues → Nat → Nat → List (Option CellValue) → Option CellValues
  | cv, _, _, [] => some cv
  | cv, x, k, none :: rest => setColFrom cv x (k + 1) rest
  | cv, x, k, some v :: rest =>
    match cv.set x k v with
    | some cv1 => setColFrom cv1 x (k + 1) rest
    | none => none

/-- Outer loop of `From<Vec<Vec<Option<CellValue>>>>`: one inner vector per
column index. -/
def setCols : CellValues → Nat → List (List (Option CellValue)) → Option CellValues
  | cv, _, [] => some cv
  | cv, x, col :: rest =>
    match setColFrom cv x 0 col with
    | some cv1 => setCols cv1 (x + 1) rest
    | none => none

/-- `impl From<Vec<Vec<Option<CellValue>>>> for CellValues` (cell_values.rs
lines 242-258): width is the outer length, the initial height is
`values[0].len()` — an indexing panic (modelled `none`) on the empty outer
vector — and every `Some` entry is written with `set`. -/
def fromOptionVec : List (List (Option CellValue)) → Option CellValues
  | [] => none
  | first :: rest =>
    setCols (CellValues.new (first :: rest).length first.length) 0 (first :: rest)

theorem setColFrom_spec (col : List (Option CellValue)) :
    ∀ (k : Nat) (cv : CellValues) (x : Nat),
      cv.columns.length = cv.w → x < cv.w →
      ∃ cv', setColFrom cv x k col = some cv' ∧
        cv'.w = cv.w ∧ cv'.columns.length = cv.w ∧
        cv'.h = max cv.h (colBound k col) ∧
        ∀ x' y', cellAt cv' x' y' =
          if x' = x then overrideCol col k y' (cellAt cv x' y') else cellAt cv x' y' := by
  induction col with
  | nil =>
    intro k cv x hinv _
    refine ⟨cv, rfl, rfl, hinv, by simp [colBound], ?_⟩
    intro x' y'
    simp only [overrideCol]
    split <;> rfl
  | cons c rest ih =>
    intro k cv x hinv hx
    cases c with
    | none =>
      obtain ⟨cv', hrun, hw', hlen', hh', hcell'⟩ := ih (k + 1) cv x hinv hx
      refine ⟨cv', hrun, hw', hlen', by rw [hh']; rfl, ?_⟩
      intro x' y'
      rw [hcell']
      by_cases hx' : x' = x
      · rw [if_pos hx', if_pos hx']
        simp only [overrideCol]
        by_cases hy : y' = k
        · subst hy
          rw [if_pos rfl, overrideCol_lt rest (y' + 1) y' _ (by omega)]
        · rw [if_neg hy]
      · rw [if_neg hx', if_neg hx']
    | some v =>
      obtain ⟨cv1, hset, hw1, hh1, hlen1, hcell1⟩ := set_spec cv x k v hinv
      have hw1' : cv1.w = cv.w := by rw [hw1]; omega
      obtain ⟨cv', hrun, hw', hlen', hh', hcell'⟩ :=
        ih (k + 1) cv1 x (by rw [hlen1, hw1']) (by rw [hw1']; exact hx)
      refine ⟨cv', ?_, by rw [hw', hw1'], by rw [hlen', hw1'], ?_, ?_⟩
      · simp only [setColFrom]
        rw [hset]
        exact hrun
      · rw [hh', hh1]
        simp only [colBound]
        omega
      · intro x' y'
        rw [hcell', hcell1]
        by_cases hx' : x' = x
        · rw [if_pos hx', if_pos hx']
          simp only [overrideCol]
          by_cases hy : y' = k
          · rw [if_pos hy, if_pos (by tauto)]
            rw [overrideCol_lt rest (k + 1) y' _ (by omega)]
          · rw [if_neg hy, if_neg (by tauto)]
        · rw [if_neg hx', if_neg hx', if_neg (by tauto)]

/-- Height contribution of the whole column list, folded left like the outer
loop runs. -/
def colsHeightFrom (h : Nat) : List (List (Option CellValue)) → Nat
  | [] => h
  | col :: rest => colsHeightFrom (max h (colBound 0 col)) rest

theorem colsHeightFrom_eq (cols : List (List (Option CellValue))) :
    ∀ h : Nat, colsHeightFrom h cols = max h ((cols.map (colBound 0)).foldr max 0) := by
  induction cols with
  | nil =>
    intro h
    simp [colsHeightFrom]
  | cons col rest ih =>
    intro h
    rw [colsHeightFrom, ih, List.map_cons, List.foldr_cons]
    omega

theorem setCols_spec (cols : List (List (Option CellValue))) :
    ∀ (x : Nat) (cv : CellValues),
      cv.columns.length = cv.w → x + cols.length ≤ cv.w →
      ∃ cv', setCols cv x cols = some cv' ∧
        cv'.w = cv.w ∧ cv'.columns.length = cv.w ∧
        cv'.h = colsHeightFrom cv.h cols ∧
        ∀ x' y', cellAt cv' x' y' =
          if x ≤ x' ∧ x' < x + cols.length then
            overrideCol (cols.getD (x' - x) []) 0 y' (cellAt cv x' y')
          else cellAt cv x' y' := by
  induction cols with
  | nil =>
    intro x cv hinv _
    refine ⟨cv, rfl, rfl, hinv, rfl, ?_⟩
    intro x' y'
    rw [if_neg (by simp only [List.length_nil]; omega)]
  | cons col rest ih =>
    intro x cv hinv hxb
    simp only [List.length_cons] at hxb
    obtain ⟨cv1, hcol, hw1, hlen1, hh1, hcell1⟩ :=
      setColFrom_spec col 0 cv x hinv (by omega)
    obtain ⟨cv', hrun, hw', hlen', hh', hcell'⟩ :=
      ih (x + 1) cv1 (by rw [hlen1, hw1]) (by rw [hw1]; omega)
    refine ⟨cv', ?_, by rw [hw', hw1], by rw [hlen', hw1], ?_, ?_⟩
    · simp only [setCols]
      rw [hcol]
      exact hrun
    · rw [hh', hh1]
      simp only [colsHeightFrom]
    · intro x' y'
      rw [hcell']
      simp only [List.length_cons]
      by_cases h1 : x + 1 ≤ x' ∧ x' < x + 1 + rest.length
      · have hc : x ≤ x' ∧ x' < x + (rest.length + 1) := by omega
        rw [if_pos h1, if_pos hc, hcell1, if_neg (by omega)]
        have hidx : x' - x = (x' - (x + 1)) + 1 := by omega
        rw [hidx]
        simp [List.getD]
      · rw [if_neg h1, hcell1]
        by_cases h2 : x' = x
        · have hc : x ≤ x' ∧ x' < x + (rest.length + 1) := by omega
          rw [if_pos h2, if_pos hc]
          subst h2
          simp [List.getD]
        · have hc : ¬ (x ≤ x' ∧ x' < x + (rest.length + 1)) := by omega
          rw [if_neg h2, if_neg hc]

/-- C10 (amended): the conversion from a column-major vector of optional
cells panics (index out of bounds) on the empty outer vector; for every
non-empty input the width is the outer length and exactly the `Some`
entries are stored at their positions, while the height is the maximum of
the first inner vector's length and one plus the largest row index holding
a `Some` entry — a ragged inner vector can grow it beyond `values[0].len()`. -/
theorem cellValues_fromOptionVec_spec (values : List (List (Option CellValue))) :
    (values = [] → fromOptionVec values = none) ∧
    (∀ first rest, values = first :: rest →
      ∃ cv, fromOptionVec values = some cv ∧
        cv.w = values.length ∧
        cv.h = max first.length ((values.map (colBound 0)).foldr max 0) ∧
        ∀ x y, cellAt cv x y = (values.getD x []).getD y none) := by
  constructor
  · intro h
    subst h
    rfl
  · intro first rest hv
    subst hv
    obtain ⟨cv, hrun, hw, hlen, hh, hcell⟩ :=
      setCols_spec (first :: rest) 0 (CellValues.new (first :: rest).length first.length)
        (by simp [CellValues.new]) (by simp [CellValues.new])
    refine ⟨cv, hrun, by rw [hw]; rfl, ?_, ?_⟩
    · rw [hh, colsHeightFrom_eq]
      rfl
    · intro x y
      rw [hcell x y]
      by_cases hx : x < (first :: rest).length
      · rw [if_pos ⟨Nat.zero_le x, by omega⟩, cellAt_new, overrideCol_none,
          if_pos (Nat.zero_le y)]
        simp [Nat.sub_zero]
      · rw [if_neg (by omega), cellAt_new]
        have hnone : ((first :: rest) : List (List (Option CellValue)))[x]? = none :=
          List.getElem?_eq_none (by omega)
        simp [List.getD, hnone]

/-- C10 counterexample: on the ragged input `[[None], [None, Some v]]` —
whose first inner vector has length 1 — the conversion succeeds with height
2, refuting "the height is the first inner vector's length". -/
theorem cellValues_fromOptionVec_counterexample :
    (fromOptionVec [[none], [none, some (CellValue.Logical true)]]).map CellValues.h =
      some 2 ∧
    List.length (List.headD [[none], [none, some (CellValue.Logical true)]]
      ([] : List (Option CellValue))) = 1 := by
  decide

/-- Witness for C10: the empty outer vector panics, and a 1-by-1 input
converts successfully. -/
theorem cellValues_fromOptionVec_spec_witness :
    fromOptionVec ([] : List (List (Option CellValue))) = none ∧
    (fromOptionVec [[some (CellValue.Logical true)]]).isSome = true := by
  constructor
  · exact (cellValues_fromOptionVec_spec []).1 rfl
  · obtain ⟨cv, hcv, -, -, -⟩ :=
      (cellValues_fromOptionVec_spec [[some (CellValue.Logical true)]]).2
        [some (CellValue.Logical true)] [] rfl
    rw [hcv]
    rfl

/-- Errors surfaced by the ingesters (import.rs): the "empty files cannot be
processed" bail, the `ArraySize::new_or_err` zero-dimension failure, an
`Array::set` out-of-range failure, and the sheet-name collision bail of the
Excel importer. -/
inductive ImportError where
  | emptyFile
  | invalidArraySize
  | setOutOfBounds
  | nameCollision (name : String)
deriving DecidableEq, Repr

/-- Modelled from the spec: the Dense Block (`Array`, §3; its defining
module is not under src/): a fixed-size rectangular buffer where every cell
holds a value, `Blank` if unset. -/
structure DArray where
  w : Nat
  h : Nat
  rows : List (List CellValue)
deriving DecidableEq, Repr

/-- `Array::height()`. -/
def DArray.height (a : DArray) : Nat := a.h

/-- `Array::get_row(row).unwrap_or_default()` as used by header inference:
the row's cells, or the empty row when the index is out of range. -/
def DArray.getRowD (a : DArray) (r : Nat) : List CellValue :=
  (a.rows[r]?).getD []

/-- `Array::new_empty(size)`: every cell starts as `Blank`. -/
def DArray.newEmpty (w h : Nat) : DArray :=
  ⟨w, h, List.replicate h (List.replicate w CellValue.Blank)⟩

/-- `Array::set(x, y, value)`: fails outside the fixed size. -/
def DArray.set (a : DArray) (x y : Nat) (v : CellValue) : Except ImportError DArray :=
  if x < a.w ∧ y < a.h then
    Except.ok ⟨a.w, a.h, a.rows.set y ((a.rows.getD y []).set x v)⟩
  else Except.error ImportError.setOutOfBounds

/-- The type signature of one row: the sequence of variant tags, not values
(import.rs lines 34-41). -/
def rowTypes (a : DArray) (r : Nat) : List Nat :=
  (a.getRowD r).map CellValue.typeId

/-- `GridController::guess_csv_first_row_is_header` (import.rs lines 29-51):
false for fewer than 3 rows; otherwise true iff row 0's type signature
differs from row 1's and row 1's equals row 2's. -/
def guessCsvFirstRowIsHeader (a : DArray) : Bool :=
  if a.height < 3 then false
  else decide (rowTypes a 0 ≠ rowTypes a 1 ∧ rowTypes a 1 = rowTypes a 2)

/-- C4: header inference returns true exactly when the input has at least 3
rows, row 0's type signature differs from row 1's, and row 1's signature
equals row 2's — in particular it returns false for every input with fewer
than 3 rows. -/
theorem guess_csv_header_iff (a : DArray) :
    guessCsvFirstRowIsHeader a = true ↔
      (3 ≤ a.height ∧ rowTypes a 0 ≠ rowTypes a 1 ∧ rowTypes a 1 = rowTypes a 2) := by
  unfold guessCsvFirstRowIsHeader
  by_cases h : a.height < 3
  · rw [if_pos h]
    constructor
    · intro hc
      cases hc
    · intro hc
      omega
  · rw [if_neg h]
    simp only [decide_eq_true_eq]
    constructor
    · intro hc
      exact ⟨by omega, hc⟩
    · intro hc
      exact hc.2

/-- Modelled from the spec: a per-cell style override record (`FormatUpdate`,
§3; its defining module is not under src/).  Only `is_default` is observed
by the import path. -/
structure FormatUpdate where
  changes : List (Nat × Nat)
deriving DecidableEq, Repr

/-- `FormatUpdate::is_default()`. -/
def FormatUpdate.isDefault (f : FormatUpdate) : Bool := f.changes.isEmpty

/-- Modelled from the spec: a sheet-qualified position (`SheetPos`). -/
structure SheetPos where
  sheetId : Nat
  x : Int
  y : Int
deriving DecidableEq, Repr

/-- Modelled from the spec: the Data Table of §3 — a named Dense Block with
accumulated format patches and a header flag (its defining module is not
under src/). -/
structure DataTable where
  name : CellValue
  value : DArray
  formats : List ((Int × Int) × FormatUpdate)
  headerIsFirstRow : Bool
deriving DecidableEq, Repr

/-- Modelled from the spec: `DataTable::apply_first_row_as_header` promotes
the first row to column headers (marked by the header flag). -/
def DataTable.applyFirstRowAsHeader (dt : DataTable) : DataTable :=
  { dt with headerIsFirstRow := true }

/-- Modelled from the spec: one sheet as carried by an add-sheet Operation
(name, ordering key position, populated cells). -/
structure SheetModel where
  id : Nat
  name : String
  order : Nat
  cells : List ((Int × Int) × CellValue)
deriving DecidableEq, Repr

/-- Modelled from the spec: the Operation vocabulary the ingestion core may
emit (§6): add-data-table, add-sheet, recompute-code. -/
inductive Operation where
  | AddDataTable (sheetPos : SheetPos) (dataTable : DataTable) (cellValue : CellValue)
  | AddSheetSchema (schema : SheetModel)
  | ComputeCode (sheetPos : SheetPos)
deriving DecidableEq, Repr

/-- Discriminator for the add-data-table variant. -/
def Operation.isAddDataTable : Operation → Bool
  | .AddDataTable _ _ _ => true
  | _ => false

/-- The per-batch progress constant `IMPORT_LINES_PER_OPERATION`
(import.rs line 24). -/
def IMPORT_LINES_PER_OPERATION : Nat := 10000

/-- Per-record inner loop of `import_csv_operations` (import.rs lines
174-188): each field is coerced and written into the block; non-default
format updates are accumulated at one-based absolute positions. -/
def fillFields (coerce : String → CellValue × FormatUpdate) :
    List String → Nat → Nat → DArray → List ((Int × Int) × FormatUpdate) →
    Except ImportError (DArray × List ((Int × Int) × FormatUpdate))
  | [], _, _, arr, fmts => Except.ok (arr, fmts)
  | s :: rest, x, y, arr, fmts =>
    match arr.set x y (coerce s).1 with
    | Except.error e => Except.error e
    | Except.ok arr1 =>
      let fmts1 := if (coerce s).2.isDefault then fmts
        else fmts ++ [(((x : Int) + 1, (y : Int) + 1), (coerce s).2)]
      fillFields coerce rest (x + 1) y arr1 fmts1

/-- Record loop of `import_csv_operations` (import.rs lines 170-208): fills
the block row by row and counts the progress notifications fired at each
`IMPORT_LINES_PER_OPERATION` boundary — a pure side channel. -/
def fillRows (coerce : String → CellValue × FormatUpdate) :
    List (List String) → Nat → DArray → List ((Int × Int) × FormatUpdate) → Nat →
    Except ImportError (DArray × List ((Int × Int) × FormatUpdate) × Nat)
  | [], _, arr, fmts, prog => Except.ok (arr, fmts, prog)
  | r :: rest, y, arr, fmts, prog =>
    match fillFields coerce r 0 y arr fmts with
    | Except.error e => Except.error e
    | Except.ok (arr1, fmts1) =>
      let prog1 := if (y + 1) % IMPORT_LINES_PER_OPERATION = 0 then prog + 1 else prog
      fillRows coerce rest (y + 1) arr1 fmts1 prog1

/-- `GridController::import_csv_operations` (import.rs lines 101-238) after
the encoding/delimiter stage: the parsed records stand for the csv reader's
output (the csv and csv-sniffer crates are external), `coerce` is the
Coercion Collaborator `string_to_cell_value`.  Height is the record count,
width the last record's field count; zero width is a hard failure; the
filled block becomes one Data Table emitted as a single add-data-table
operation. -/
def importCsvOperations (coerce : String → CellValue × FormatUpdate) (sheetId : Nat)
    (records : List (List String)) (fileName : String) (insertAt : Int × Int)
    (headerIsFirstRow : Option Bool) : Except ImportError (List Operation) :=
  let height := records.length
  let width := (records.getLast?.map List.length).getD 0
  if width = 0 then Except.error ImportError.emptyFile
  else if height = 0 then Except.error ImportError.invalidArraySize
  else
    match fillRows coerce records 0 (DArray.newEmpty width height) [] 0 with
    | Except.error e => Except.error e
    | Except.ok (arr, fmts, _progressBatches) =>
      let applyHeader :=
        match headerIsFirstRow with
        | some b => b
        | none => guessCsvFirstRowIsHeader arr
      let dt0 : DataTable := ⟨CellValue.Import fileName, arr, fmts, false⟩
      let dt := if applyHeader then dt0.applyFirstRowAsHeader else dt0
      Except.ok [Operation.AddDataTable ⟨sheetId, insertAt.1, insertAt.2⟩ dt
        (CellValue.Import fileName)]

/-- C5: whenever `import_csv_operations` succeeds the returned operation
list is exactly one add-data-table operation, for every input size —
progress-batch boundaries are a side channel and never split the output. -/
theorem import_csv_single_operation (coerce : String → CellValue × FormatUpdate)
    (sheetId : Nat) (records : List (List String)) (fileName : String)
    (insertAt : Int × Int) (headerIsFirstRow : Option Bool) (ops : List Operation)
    (hok : importCsvOperations coerce sheetId records fileName insertAt headerIsFirstRow =
      Except.ok ops) :
    ops.length = 1 ∧ ops.all Operation.isAddDataTable = true := by
  simp only [importCsvOperations] at hok
  split at hok
  · cases hok
  · split at hok
    · cases hok
    · split at hok
      · cases hok
      · cases hok
        exact ⟨rfl, rfl⟩

/-- Witness for C5: a 3-record file imports to a single add-data-table
operation. -/
theorem import_csv_single_operation_witness :
    ((importCsvOperations (fun _ => (CellValue.Blank, ⟨[]⟩)) 0
        [[("a")], [("b")], [("c")]] ("t.csv") (0, 0) (some false)).toOption.getD
      []).length = 1 ∧
    ((importCsvOperations (fun _ => (CellValue.Blank, ⟨[]⟩)) 0
        [[("a")], [("b")], [("c")]] ("t.csv") (0, 0) (some false)).toOption.getD
      []).all Operation.isAddDataTable = true := by
  exact import_csv_single_operation (fun _ => (CellValue.Blank, ⟨[]⟩)) 0
    [[("a")], [("b")], [("c")]] ("t.csv") (0, 0) (some false) _ (by rfl)

/-- Modelled from the spec: the calamine `Data` cell variants consumed by
`import_excel_operations` (the calamine crate is external).  The
`EDateTime` variant carries `is_datetime()` and the `as_datetime()`
decoding result. -/
inductive ExcelData where
  | Empty
  | EString (s : String)
  | DateTimeIso (s : String)
  | EDateTime (isDatetime : Bool) (decoded : Option NaiveDateTime) (text : String)
  | DurationIso (s : String)
  | EFloat (text : String)
  | EInt (text : String)
  | EError
  | EBool (b : Bool)
deriving DecidableEq, Repr

/-- The zero time-of-day `00:00:00`: `NaiveTime::parse_from_str` of that
literal (import.rs line 300) always succeeds, so the parsed constant is
embedded directly; the parse-failure fallback arm of the source is dead. -/
def zeroTime : NaiveTime := ⟨0, 0, 0⟩

/-- The epoch zero-date `1899-12-31` (import.rs line 301), embedded like
`zeroTime`. -/
def zeroDate : NaiveDate := ⟨1899, 12, 31⟩

/-- The date/time/datetime disambiguation of the `ExcelData::DateTime` arm
(import.rs lines 299-313): zero time-of-day gives a pure `Date`, else the
zero date gives a pure `Time`, else the full `DateTime`. -/
def excelDateTimeDisambiguate (v : NaiveDateTime) : CellValue :=
  if v.time = zeroTime then CellValue.Date v.date
  else if v.date = zeroDate then CellValue.Time v.time
  else CellValue.DateTime v

/-- The per-cell mapping of the Excel value walk (import.rs lines 288-328).
`udt` stands for `CellValue::unpack_date_time` and `usf` for
`CellValue::unpack_str_float` (both defined outside src/); `none` models
`continue` (the cell is skipped, notably for `Empty` and `Error`). -/
def excelCellToCellValue (udt : String → Option CellValue)
    (usf : String → CellValue → CellValue) : ExcelData → Option CellValue
  | .Empty => none
  | .EString s => some (CellValue.Text s)
  | .DateTimeIso s => some ((udt s).getD (CellValue.Text s))
  | .EDateTime true dec _ => some (dec.elim CellValue.Blank excelDateTimeDisambiguate)
  | .EDateTime false _ t => some (CellValue.Text t)
  | .DurationIso s => some (CellValue.Text s)
  | .EFloat t => some (usf t CellValue.Blank)
  | .EInt t => some (usf t CellValue.Blank)
  | .EError => none
  | .EBool b => some (CellValue.Logical b)

/-- Modelled from the spec: one worksheet as the calamine reader presents it
to `import_excel_operations`: its name, the value range and the formula
range, each with the range start position. -/
structure ExcelSheet where
  name : String
  valuesStart : Int × Int
  values : List (List ExcelData)
  formulasStart : Int × Int
  formulas : List (List String)
deriving DecidableEq, Repr

/-- Value-range walk of one sheet (import.rs lines 286-337): each decoded
cell is placed at the range start plus its (x, y) offset; skipped cells
(`Empty`, `Error`) leave no entry. -/
def sheetValueCells (udt : String → Option CellValue)
    (usf : String → CellValue → CellValue) (start : Int × Int)
    (rows : List (List ExcelData)) : List ((Int × Int) × CellValue) :=
  rows.enum.bind (fun yrow =>
    yrow.2.enum.filterMap (fun xcell =>
      (excelCellToCellValue udt usf xcell.2).map
        (fun v => ((start.1 + (xcell.1 : Int), start.2 + (yrow.1 : Int)), v))))

/-- Formula-range walk of one sheet (import.rs lines 361-377): each
non-empty formula cell yields its position and source text. -/
def sheetFormulaCells (start : Int × Int) (rows : List (List String)) :
    List ((Int × Int) × String) :=
  rows.enum.bind (fun yrow =>
    yrow.2.enum.filterMap (fun xcell =>
      if xcell.2.isEmpty then none
      else some ((start.1 + (xcell.1 : Int), start.2 + (yrow.1 : Int)), xcell.2)))

/-- Per-sheet loop of `import_excel_operations` (import.rs lines 278-403):
each sheet is populated from its value and formula ranges and emitted as one
add-sheet operation followed by that sheet's recompute operations.  The
fractional ordering key (external crate) is modelled by the sequential
order index. -/
def buildSheetOps (udt : String → Option CellValue)
    (usf : String → CellValue → CellValue) : List ExcelSheet → Nat → List Operation
  | [], _ => []
  | s :: rest, order =>
    let vcells := sheetValueCells udt usf s.valuesStart s.values
    let fpairs := sheetFormulaCells s.formulasStart s.formulas
    let fcells := fpairs.map (fun pc => (pc.1, CellValue.Code CodeCellLanguage.Formula pc.2))
    let sheet : SheetModel := ⟨order, s.name, order, vcells ++ fcells⟩
    (Operation.AddSheetSchema sheet ::
        fpairs.map (fun pc => Operation.ComputeCode ⟨order, pc.1.1, pc.1.2⟩)) ++
      buildSheetOps udt usf rest (order + 1)

/-- `GridController::import_excel_operations` (import.rs lines 241-406): all
incoming sheet names are checked against the existing ones before any sheet
is built; the first collision aborts the whole import with a name-collision
error, otherwise the per-sheet operations are produced. -/
def importExcelOperations (udt : String → Option CellValue)
    (usf : String → CellValue → CellValue) (existingNames : List String)
    (sheets : List ExcelSheet) : Except ImportError (List Operation) :=
  match sheets.find? (fun s => existingNames.contains s.name) with
  | some s => Except.error (ImportError.nameCollision s.name)
  | none => Except.ok (buildSheetOps udt usf sheets 0)

/-- C6: if any incoming sheet name equals an existing sheet name the
Excel import fails with a name-collision error for a colliding name and
returns no operations at all (no partial multi-sheet state); conversely a
successful import implies there was no collision. -/
theorem import_excel_name_collision (udt : String → Option CellValue)
    (usf : String → CellValue → CellValue) (existingNames : List String)
    (sheets : List ExcelSheet) :
    ((sheets.any (fun s => existingNames.contains s.name)) = true →
      ∃ nm, importExcelOperations udt usf existingNames sheets =
          Except.error (ImportError.nameCollision nm) ∧
        nm ∈ sheets.map ExcelSheet.name ∧ existingNames.contains nm = true) ∧
    (∀ ops, importExcelOperations udt usf existingNames sheets = Except.ok ops →
      (sheets.any (fun s => existingNames.contains s.name)) = false) := by
  constructor
  · intro hcol
    unfold importExcelOperations
    cases hfind : sheets.find? (fun s => existingNames.contains s.name) with
    | none =>
      rw [List.find?_eq_none] at hfind
      rw [List.any_eq_true] at hcol
      obtain ⟨s, hmem, hs⟩ := hcol
      exact absurd hs (by simpa using hfind s hmem)
    | some s =>
      refine ⟨s.name, rfl, ?_, ?_⟩
      · exact List.mem_map_of_mem ExcelSheet.name (List.mem_of_find?_eq_some hfind)
      · simpa using List.find?_some hfind
  · intro ops hok
    unfold importExcelOperations at hok
    cases hfind : sheets.find? (fun s => existingNames.contains s.name) with
    | none =>
      rw [List.find?_eq_none] at hfind
      rw [List.any_eq_false]
      intro s hmem
      simpa using hfind s hmem
    | some s =>
      rw [hfind] at hok
      cases hok

/-- Witness for C6: importing a workbook whose only sheet is named like an
existing sheet fails with that name's collision error. -/
theorem import_excel_name_collision_witness :
    importExcelOperations (fun _ => none) (fun _ d => d) [("a")]
      [⟨("a"), (0, 0), [], (0, 0), []⟩] =
      Except.error (ImportError.nameCollision ("a")) := by
  obtain ⟨nm, hrun, hmem, -⟩ :=
    (import_excel_name_collision (fun _ => none) (fun _ d => d) [("a")]
      [⟨("a"), (0, 0), [], (0, 0), []⟩]).1 (by decide)
  have hnm : nm = ("a") := by simpa using hmem
  rw [hnm] at hrun
  exact hrun

/-- C7: for every ambiguous numeric Excel date-time cell decoding to `v`,
the ingester stores `Date(v.date)` when `v`'s time-of-day is the zero time
00:00:00 (taking priority), otherwise `Time(v.time)` when `v`'s date is the
epoch zero-date 1899-12-31, otherwise `DateTime(v)`. -/
theorem excel_datetime_disambiguation (udt : String → Option CellValue)
    (usf : String → CellValue → CellValue) (v : NaiveDateTime) (t : String) :
    (v.time = zeroTime →
      excelCellToCellValue udt usf (ExcelData.EDateTime true (some v) t) =
        some (CellValue.Date v.date)) ∧
    (v.time ≠ zeroTime → v.date = zeroDate →
      excelCellToCellValue udt usf (ExcelData.EDateTime true (some v) t) =
        some (CellValue.Time v.time)) ∧
    (v.time ≠ zeroTime → v.date ≠ zeroDate →
      excelCellToCellValue udt usf (ExcelData.EDateTime true (some v) t) =
        some (CellValue.DateTime v)) := by
  refine ⟨?_, ?_, ?_⟩
  · intro h1
    simp [excelCellToCellValue, excelDateTimeDisambiguate, h1]
  · intro h1 h2
    simp [excelCellToCellValue, excelDateTimeDisambiguate, h1, h2]
  · intro h1 h2
    simp [excelCellToCellValue, excelDateTimeDisambiguate, h1, h2]

/-- Witness for C7: one concrete cell per disambiguation branch. -/
theorem excel_datetime_disambiguation_witness :
    excelCellToCellValue (fun _ => none) (fun _ d => d)
      (ExcelData.EDateTime true (some ⟨⟨2024, 1, 2⟩, ⟨0, 0, 0⟩⟩) ("x")) =
      some (CellValue.Date ⟨2024, 1, 2⟩) ∧
    excelCellToCellValue (fun _ => none) (fun _ d => d)
      (ExcelData.EDateTime true (some ⟨⟨1899, 12, 31⟩, ⟨13, 0, 0⟩⟩) ("x")) =
      some (CellValue.Time ⟨13, 0, 0⟩) ∧
    excelCellToCellValue (fun _ => none) (fun _ d => d)
      (ExcelData.EDateTime true (some ⟨⟨2024, 1, 2⟩, ⟨13, 0, 0⟩⟩) ("x")) =
      some (CellValue.DateTime ⟨⟨2024, 1, 2⟩, ⟨13, 0, 0⟩⟩) :=
  ⟨(excel_datetime_disambiguation (fun _ => none) (fun _ d => d)
      ⟨⟨2024, 1, 2⟩, ⟨0, 0, 0⟩⟩ ("x")).1 rfl,
   (excel_datetime_disambiguation (fun _ => none) (fun _ d => d)
      ⟨⟨1899, 12, 31⟩, ⟨13, 0, 0⟩⟩ ("x")).2.1 (by decide) rfl,
   (excel_datetime_disambiguation (fun _ => none) (fun _ d => d)
      ⟨⟨2024, 1, 2⟩, ⟨13, 0, 0⟩⟩ ("x")).2.2 (by decide) (by decide)⟩

/-- The number of bytes `char::len_utf8` reports for a code point. -/
def utf8Len (c : Nat) : Nat :=
  if c < 0x80 then 1 else if c < 0x800 then 2 else if c < 0x10000 then 3 else 4

/-- The UTF-8 encoding of one code point. -/
def utf8EncodeChar (c : Nat) : List Nat :=
  if c < 0x80 then [c]
  else if c < 0x800 then [0xC0 + c / 64, 0x80 + c % 64]
  else if c < 0x10000 then [0xE0 + c / 4096, 0x80 + (c / 64) % 64, 0x80 + c % 64]
  else [0xF0 + c / 262144, 0x80 + (c / 4096) % 64, 0x80 + (c / 64) % 64, 0x80 + c % 64]

/-- The UTF-8 encoding of a text (`str::as_bytes` of the recovered string). -/
def utf8Encode (s : List Nat) : List Nat := s.flatMap utf8EncodeChar

/-- Strict UTF-8 decoding of a byte sequence, `none` exactly when the bytes
are not valid UTF-8 (overlong forms, surrogates and out-of-range leads
rejected, as `String::from_utf8_lossy`'s validity test does). -/
def utf8Decode : List Nat → Option (List Nat)
  | [] => some []
  | b :: rest =>
    if b < 0x80 then (utf8Decode rest).map (fun t => b :: t)
    else if b < 0xC2 then none
    else if b < 0xE0 then
      match rest with
      | c :: r =>
        if 0x80 ≤ c ∧ c < 0xC0 then
          (utf8Decode r).map (fun t => ((b - 0xC0) * 64 + (c - 0x80)) :: t)
        else none
      | [] => none
    else if b < 0xF0 then
      match rest with
      | c :: d :: r =>
        if (0x80 ≤ c ∧ c < 0xC0) ∧ (0x80 ≤ d ∧ d < 0xC0) ∧
            (b ≠ 0xE0 ∨ 0xA0 ≤ c) ∧ (b ≠ 0xED ∨ c < 0xA0) then
          (utf8Decode r).map
            (fun t => ((b - 0xE0) * 4096 + (c - 0x80) * 64 + (d - 0x80)) :: t)
        else none
      | _ => none
    else if b < 0xF5 then
      match rest with
      | c :: d :: e :: r =>
        if (0x80 ≤ c ∧ c < 0xC0) ∧ (0x80 ≤ d ∧ d < 0xC0) ∧ (0x80 ≤ e ∧ e < 0xC0) ∧
            (b ≠ 0xF0 ∨ 0x90 ≤ c) ∧ (b ≠ 0xF4 ∨ c < 0x90) then
          (utf8Decode r).map (fun t =>
            ((b - 0xF0) * 262144 + (c - 0x80) * 4096 + (d - 0x80) * 64 + (e - 0x80)) :: t)
        else none
      | _ => none
    else none

/-- The UTF-16 code units of one code point (one unit for the BMP, a
surrogate pair above it). -/
def utf16EncodeChar (c : Nat) : List Nat :=
  if c < 0x10000 then [c]
  else [0xD800 + (c - 0x10000) / 0x400, 0xDC00 + (c - 0x10000) % 0x400]

/-- The UTF-16 code units of a text. -/
def utf16Units (s : List Nat) : List Nat := s.flatMap utf16EncodeChar

/-- Little-endian byte serialization of 16-bit code units. -/
def unitsToBytesLE (us : List Nat) : List Nat :=
  us.flatMap (fun u => [u % 256, u / 256])

/-- The UTF-16LE byte encoding of a text. -/
def utf16le (s : List Nat) : List Nat := unitsToBytesLE (utf16Units s)

/-- The byte-pairing loop of `read_utf16` (import.rs lines 504-510):
`chunks_exact(2)` drops a trailing odd byte; `u16::from_ne_bytes` is
little-endian on the wasm/x86 targets the code runs on. -/
def toU16le : List Nat → List Nat
  | b0 :: b1 :: rest => (b0 + 256 * b1) :: toU16le rest
  | _ => []

/-- `String::from_utf16`: UTF-16 decoding with surrogate-pair handling,
failing on an unpaired surrogate. -/
def utf16Decode : List Nat → Option (List Nat)
  | [] => some []
  | u :: rest =>
    if u < 0xD800 ∨ 0xE000 ≤ u then (utf16Decode rest).map (fun t => u :: t)
    else if u < 0xDC00 then
      match rest with
      | v :: rest2 =>
        if 0xDC00 ≤ v ∧ v < 0xE000 then
          (utf16Decode rest2).map
            (fun t => (0x10000 + (u - 0xD800) * 0x400 + (v - 0xDC00)) :: t)
        else none
      | [] => none
    else none

/-- `read_utf16` (import.rs lines 498-521): `None` only for the empty input
(the guard `bytes.is_empty() && bytes.len() % 2 == 0` reduces to
`is_empty`); otherwise pair the bytes into little-endian 16-bit units,
decode UTF-16, and drop every character whose UTF-8 encoding needs more
than 2 bytes. -/
def readUtf16 (bytes : List Nat) : Option (List Nat) :=
  if bytes.isEmpty then none
  else (utf16Decode (toU16le bytes)).map
    (fun chars => chars.filter (fun c => decide (utf8Len c ≤ 2)))

/-- The encoding stage of `import_csv_operations` (import.rs lines
113-128): valid UTF-8 bytes are parsed as-is; otherwise, when `read_utf16`
recovers a string, the import recurses on that string's UTF-8 bytes (which
are valid, so the recursion parses them as-is); otherwise the raw bytes are
used unchanged. -/
def importBytes (bytes : List Nat) : List Nat :=
  if (utf8Decode bytes).isSome then bytes
  else
    match readUtf16 bytes with
    | some chars => utf8Encode chars
    | none => bytes

/-- Modelled from the spec: the row/column content the csv reader (external
crate) extracts from quote-free delimited bytes — rows split on the newline
byte, fields on the comma delimiter byte. -/
def csvSplit (bytes : List Nat) : List (List (List Nat)) :=
  (bytes.splitOn 10).map (fun row => row.splitOn 44)

theorem utf16Units_bmp (text : List Nat) (hc : ∀ c ∈ text, c < 0x10000) :
    utf16Units text = text := by
  induction text with
  | nil => rfl
  | cons c rest ih =>
    simp only [utf16Units, List.flatMap_cons]
    rw [utf16EncodeChar, if_pos (hc c (List.mem_cons_self c rest))]
    have := ih (fun u hu => hc u (List.mem_cons_of_mem c hu))
    simp only [utf16Units] at this
    rw [this]
    rfl

theorem toU16le_pairs (text : List Nat) :
    toU16le (text.flatMap (fun c => [c % 256, c / 256])) = text := by
  induction text with
  | nil => rfl
  | cons c rest ih =>
    simp only [List.flatMap_cons, List.cons_append, List.nil_append]
    rw [toU16le, ih, Nat.mod_add_div c 256]

theorem utf16Decode_bmp (us : List Nat) (h : ∀ u ∈ us, u < 0xD800) :
    utf16Decode us = some us := by
  induction us with
  | nil => rfl
  | cons u rest ih =>
    rw [utf16Decode.eq_def]
    dsimp only
    rw [if_pos (Or.inl (h u (List.mem_cons_self u rest)))]
    rw [ih (fun v hv => h v (List.mem_cons_of_mem u hv))]
    rfl

theorem filter_utf8len_le_two (text : List Nat) (hc : ∀ c ∈ text, c < 0x800) :
    text.filter (fun c => decide (utf8Len c ≤ 2)) = text := by
  apply List.filter_eq_self.mpr
  intro c hcin
  simp only [decide_eq_true_eq]
  have hlt := hc c hcin
  by_cases h1 : c < 0x80
  · simp [utf8Len, h1]
  · simp [utf8Len, h1, hlt]

theorem readUtf16_utf16le (text : List Nat) (hc : ∀ c ∈ text, c < 0x800)
    (hne : text ≠ []) : readUtf16 (utf16le text) = some text := by
  have hunits : utf16Units text = text :=
    utf16Units_bmp text (fun c hcm => by have := hc c hcm; omega)
  have hbytes : utf16le text = text.flatMap (fun c => [c % 256, c / 256]) := by
    rw [utf16le, hunits]
    rfl
  unfold readUtf16
  rw [hbytes]
  have hnonempty : (text.flatMap (fun c => [c % 256, c / 256])).isEmpty = false := by
    cases text with
    | nil => exact absurd rfl hne
    | cons c rest => simp
  rw [hnonempty]
  simp only [Bool.false_eq_true, if_false]
  rw [toU16le_pairs, utf16Decode_bmp text (fun u hu => by have := hc u hu; omega)]
  rw [Option.map_some']
  rw [filter_utf8len_le_two text hc]

/-- C8 (amended): for every delimited text whose characters each need at
most 2 UTF-8 bytes, the UTF-16LE byte encoding — when it is not valid UTF-8
and therefore enters the recovery path — is recovered by `read_utf16` to
exactly the original text, so the import proceeds on the same bytes as a
UTF-8 import of that text and produces identical row/column content. -/
theorem utf16_recovery_matches_utf8 (text : List Nat)
    (hc : ∀ c ∈ text, c < 0x800) (hne : text ≠ [])
    (hinvalid : utf8Decode (utf16le text) = none) :
    readUtf16 (utf16le text) = some text ∧
    importBytes (utf16le text) = utf8Encode text ∧
    csvSplit (importBytes (utf16le text)) = csvSplit (utf8Encode text) := by
  have hr := readUtf16_utf16le text hc hne
  have h2 : importBytes (utf16le text) = utf8Encode text := by
    unfold importBytes
    rw [hinvalid]
    simp only [Option.isSome_none, Bool.false_eq_true, if_false]
    rw [hr]
  exact ⟨hr, h2, by rw [h2]⟩

/-- C8 counterexample: the text "a,€" (code points [97, 44, 8364]) is a
delimited text whose UTF-16LE bytes are not valid UTF-8, yet the recovery
path drops the 3-UTF-8-byte character '€' and parses different row/column
content than the UTF-8 import of the same text. -/
theorem utf16_recovery_counterexample :
    utf8Decode (utf16le [97, 44, 8364]) = none ∧
    readUtf16 (utf16le [97, 44, 8364]) = some [97, 44] ∧
    csvSplit (importBytes (utf16le [97, 44, 8364])) ≠
      csvSplit (utf8Encode [97, 44, 8364]) := by
  decide

/-- Witness for C8: the text "hé" (code points [104, 233]) has only ≤2-byte
characters; its UTF-16LE bytes are not valid UTF-8 and the recovery path
yields exactly the UTF-8 bytes of the text. -/
theorem utf16_recovery_matches_utf8_witness :
    utf8Decode (utf16le [104, 233]) = none ∧
    importBytes (utf16le [104, 233]) = utf8Encode [104, 233] := by
  refine ⟨by decide, ?_⟩
  exact (utf16_recovery_matches_utf8 [104, 233] (by decide) (by decide) (by decide)).2.1
